import Mathlib

/-! ## Verification of the matching-and-ranking engine

Shallow embedding of the suggestion engine of the repository
(`src/ui/AnotherQuickSwitcherModal.ts`, `src/ui/HeaderModal.ts`,
`src/ui/suggestion-factory.ts`, `src/app-helper.ts`) together with
theorems settling the specification claims.

Strings are embedded as `List Char`.  Components of the repository that
are referenced from the embedded files but whose sources are not part of
the provided tree (`src/matcher.ts`, `src/sorters.ts`,
`src/utils/strings.ts`, `src/utils/path.ts`, `src/utils/collection-helper.ts`)
are modelled from the specification; each such definition carries a doc
comment starting with "Modelled from the spec:".
-/

/-! ## Generic string and collection helpers -/

/-- Whitespace characters relevant to the query language: ASCII space,
tab, newline, carriage return, and the full-width (ideographic) space
U+3000.  Used to model `String.prototype.trim` and the whitespace
splitting described by the spec. -/
def isWhitespaceChar (c : Char) : Bool :=
  c == ' ' || c == '\t' || c == '\n' || c == '\r' || c == '　'

/-- Splits a character list at every character satisfying `p`, keeping
empty fragments, exactly as JavaScript `String.prototype.split` does for
a one-character separator (generalised to a predicate). -/
def splitOnPred (p : Char → Bool) : List Char → List (List Char)
  | [] => [[]]
  | c :: cs =>
    if p c then
      [] :: splitOnPred p cs
    else
      match splitOnPred p cs with
      | [] => [[c]]
      | t :: ts => (c :: t) :: ts

/-- Model of JavaScript `String.prototype.trim`: removes leading and
trailing whitespace. -/
def jsTrim (s : List Char) : List Char :=
  ((s.dropWhile isWhitespaceChar).reverse.dropWhile isWhitespaceChar).reverse

/-- Modelled from the spec: `uniq` of `src/utils/collection-helper.ts` is
not under `src/`; it removes duplicates keeping the first occurrence
(JavaScript `[...new Set(xs)]`). -/
def uniqAux {α : Type} [BEq α] (seen : List α) : List α → List α
  | [] => []
  | x :: xs => if seen.contains x then uniqAux seen xs else x :: uniqAux (x :: seen) xs

/-- Modelled from the spec: duplicate removal keeping first occurrences. -/
def uniq {α : Type} [BEq α] (l : List α) : List α :=
  uniqAux [] l

/-- Modelled from the spec: `flatten` of `src/utils/collection-helper.ts`
is not under `src/`; it concatenates a list of lists. -/
def flatten {α : Type} (l : List (List α)) : List α :=
  l.flatten

/-- Modelled from the spec: `uniqFlatMap` of
`src/utils/collection-helper.ts` is not under `src/`; it flat-maps and
removes duplicates. -/
def uniqFlatMap {α β : Type} [BEq β] (xs : List α) (f : α → List β) : List β :=
  uniq (flatten (xs.map f))

/-- Modelled from the spec: `count` of `src/utils/collection-helper.ts`
is not under `src/`; it counts occurrences of each value, keyed by first
occurrence. -/
def countOccurrences {α : Type} [BEq α] (l : List α) : List (α × Nat) :=
  (uniq l).map (fun x => (x, l.count x))

/-- Lexicographic comparison of character lists (used to model the
alphabetical priority rule). -/
def lexCompare : List Char → List Char → Ordering
  | [], [] => .eq
  | [], _ :: _ => .lt
  | _ :: _, [] => .gt
  | a :: as, b :: bs =>
    match compare a b with
    | .eq => lexCompare as bs
    | o => o

/-! ## Data model

Mirrors `SuggestionItem` (built in `AnotherQuickSwitcherModal.indexingItems`
and for phantom items in its constructor) and `MatchResult` (the spec §3
data model; `src/matcher.ts` itself is not under `src/`). -/

/-- Model of `TFile.stat` of the host API, as populated by
`AppHelper.createPhantomFile`. -/
structure FileStat where
  mtime : Nat
  ctime : Nat
  size : Nat
  deriving DecidableEq, Repr

/-- The slice of the host `TFile` object that the engine reads. -/
structure TFileM where
  path : List Char
  name : List Char
  extension : List Char
  basename : List Char
  parentName : List Char
  parentPath : List Char
  stat : FileStat
  deriving DecidableEq, Repr

/-- The `MatchResult.type` tag: tagged variant `Name | Alias | Tag | Header |
Link | NotFound` (the source uses the strings "name", "prefix-name",
"tag", "header", "link", "not found"; the filter in `_getSuggestions`
tests `type !== "not found"`). -/
inductive MatchType where
  | name
  | aliasKind
  | tag
  | header
  | link
  | notFound
  deriving DecidableEq, Repr

/-- One verdict per (item, token).  `score = none` is the sentinel for an
exact (literal substring) hit; `some s` is a fuzzy score.  The source
field `alias` is named `isAlias` here (`alias` is reserved in Lean). -/
structure MatchResult where
  type : MatchType
  score : Option Nat
  meta : Option (List (List Char))
  isAlias : Bool
  deriving DecidableEq, Repr

/-- A candidate item, as assembled in
`AnotherQuickSwitcherModal.indexingItems` (and, for phantom items, in the
modal constructor). -/
structure SuggestionItem where
  file : TFileM
  aliases : List (List Char)
  tags : List (List Char)
  headers : List (List Char)
  links : List (List Char)
  phantom : Bool
  starred : Bool
  matchResults : List MatchResult
  tokens : List (List Char)
  order : Option Nat := none
  deriving DecidableEq, Repr

/-- The option record passed to `stampMatchResults` at
`AnotherQuickSwitcherModal.ts` lines 382-390. -/
structure SearchOption where
  isNormalizeAccentsDiacritics : Bool
  searchByTags : Bool
  searchByHeaders : Bool
  searchByLinks : Bool
  fuzzyTarget : Bool
  minFuzzyScore : Nat
  deriving DecidableEq, Repr

/-- Values of `SearchCommand.searchTarget`. -/
inductive SearchTarget where
  | file
  | backlink
  | link
  | twoHopLink
  deriving DecidableEq, Repr

/-- Modelled from the spec: `PriorityRule` is a tagged variant
enumerating comparison criteria (§3: exact-match-over-fuzzy,
shorter-name-over-longer, starred-over-unstarred, last-opened-recency,
alphabetical); `src/sorters.ts` is not under `src/`. -/
inductive PriorityRule where
  | exactOverFuzzy
  | shorterName
  | starred
  | lastOpened
  | alphabetical
  deriving DecidableEq, Repr

/-- The slice of `SearchCommand` that `_getSuggestions` reads. -/
structure CommandM where
  searchTarget : SearchTarget
  searchByTag : Bool
  searchByHeader : Bool
  searchByLink : Bool
  allowFuzzySearchForSearchTarget : Bool
  minFuzzyMatchScore : Nat
  sortPriorities : List PriorityRule
  deriving DecidableEq, Repr

/-- The slice of `Settings` that `_getSuggestions` reads. -/
structure SettingsM where
  normalizeAccentsAndDiacritics : Bool
  maxNumberOfSuggestions : Nat
  deriving DecidableEq, Repr

/-- The output of one suggestion evaluation: the ordered, truncated item
list plus the counts shown in the "`shown / total`" status indicator
(`AnotherQuickSwitcherModal.ts` lines 409-420). -/
structure SuggestResult where
  items : List SuggestionItem
  shownCount : Nat
  totalCount : Nat
  deriving DecidableEq, Repr

/-! ## Normalizer and field matchers

`src/matcher.ts` and `src/utils/strings.ts` are not under `src/`; the
definitions below are modelled from the spec (§4.1-§4.3). -/

/-- Modelled from the spec: a small diacritic-folding table (§4.1 -
"strips combining diacritical marks so that visually-accented and
unaccented forms compare equal"). -/
def foldDiacritic (c : Char) : Char :=
  if c == 'á' || c == 'à' || c == 'â' || c == 'ä' || c == 'ã' || c == 'å' then 'a'
  else if c == 'é' || c == 'è' || c == 'ê' || c == 'ë' then 'e'
  else if c == 'í' || c == 'ì' || c == 'î' || c == 'ï' then 'i'
  else if c == 'ó' || c == 'ò' || c == 'ô' || c == 'ö' || c == 'õ' then 'o'
  else if c == 'ú' || c == 'ù' || c == 'û' || c == 'ü' then 'u'
  else if c == 'ñ' then 'n'
  else if c == 'ç' then 'c'
  else c

/-- Modelled from the spec: `normalize` (§4.1) lower-cases and, when
enabled, folds diacritics. -/
def normalizeStr (foldDiacritics : Bool) (s : List Char) : List Char :=
  (s.map Char.toLower).map (fun c => if foldDiacritics then foldDiacritic c else c)

/-- Whether `sub` occurs as a contiguous sublist of `text` (the model of
JavaScript `String.prototype.includes`). -/
def containsSub (text sub : List Char) : Bool :=
  sub.isPrefixOf text ||
    match text with
    | [] => false
    | _ :: ts => containsSub ts sub

/-- Modelled from the spec: `smartIncludes` of `src/utils/strings.ts` -
exact substring match on normalized strings (§4.2). -/
def smartIncludes (text query : List Char) (normalize : Bool) : Bool :=
  containsSub (normalizeStr normalize text) (normalizeStr normalize query)

/-- Subsequence test used by the modelled fuzzy matcher. -/
def isSubsequenceOf : List Char → List Char → Bool
  | [], _ => true
  | _ :: _, [] => false
  | q :: qs, t :: ts =>
    if q == t then isSubsequenceOf qs ts else isSubsequenceOf (q :: qs) ts

/-- Modelled from the spec: the fuzzy matcher (§4.2, §9 open question -
the exact formula is implementation-defined).  A token fuzzy-matches a
value when its normalized form is a subsequence of the normalized value;
the score is the token length, accepted when it reaches
`minFuzzyScore`. -/
def fuzzyHit (value query : List Char) (o : SearchOption) : Bool :=
  isSubsequenceOf (normalizeStr o.isNormalizeAccentsDiacritics query)
      (normalizeStr o.isNormalizeAccentsDiacritics value)
    && o.minFuzzyScore ≤ query.length

/-- Exact name hit: some name token contains the query token (§4.2). -/
def nameExactHit (x : SuggestionItem) (q : List Char) (o : SearchOption) : Bool :=
  x.tokens.any (fun t => smartIncludes t q o.isNormalizeAccentsDiacritics)

/-- Fuzzy name hit, available only when fuzzy search is enabled. -/
def nameFuzzyHit (x : SuggestionItem) (q : List Char) (o : SearchOption) : Bool :=
  o.fuzzyTarget && x.tokens.any (fun t => fuzzyHit t q o)

/-- Aliases matched exactly by the token. -/
def aliasExactHits (x : SuggestionItem) (q : List Char) (o : SearchOption) : List (List Char) :=
  x.aliases.filter (fun v => smartIncludes v q o.isNormalizeAccentsDiacritics)

/-- Aliases matched fuzzily by the token. -/
def aliasFuzzyHits (x : SuggestionItem) (q : List Char) (o : SearchOption) : List (List Char) :=
  if o.fuzzyTarget then x.aliases.filter (fun v => fuzzyHit v q o) else []

/-- Tags matched by the token (facet active only when tag search is
enabled). -/
def tagHits (x : SuggestionItem) (q : List Char) (o : SearchOption) : List (List Char) :=
  if o.searchByTags then
    x.tags.filter (fun v => smartIncludes v q o.isNormalizeAccentsDiacritics)
  else []

/-- Headers matched by the token (facet active only when header search
is enabled). -/
def headerHits (x : SuggestionItem) (q : List Char) (o : SearchOption) : List (List Char) :=
  if o.searchByHeaders then
    x.headers.filter (fun v => smartIncludes v q o.isNormalizeAccentsDiacritics)
  else []

/-- Links matched by the token (facet active only when link search is
enabled). -/
def linkHits (x : SuggestionItem) (q : List Char) (o : SearchOption) : List (List Char) :=
  if o.searchByLinks then
    x.links.filter (fun v => smartIncludes v q o.isNormalizeAccentsDiacritics)
  else []

/-- Modelled from the spec (§4.3): the per-(item, token) verdict.
Enabled facet matchers are evaluated in the precedence order
Name > Alias > Tag > Header > Link, preferring exact over fuzzy within
the name and alias facets; the first facet that yields a match becomes
the token's `MatchResult`, and `NotFound` is recorded when no enabled
facet matches. -/
def matchToken (x : SuggestionItem) (q : List Char) (o : SearchOption) : MatchResult :=
  if nameExactHit x q o then
    { type := .name, score := none, meta := some [x.file.basename], isAlias := false }
  else if nameFuzzyHit x q o then
    { type := .name, score := some q.length, meta := some [x.file.basename], isAlias := false }
  else if !(aliasExactHits x q o).isEmpty then
    { type := .aliasKind, score := none, meta := some (aliasExactHits x q o), isAlias := true }
  else if !(aliasFuzzyHits x q o).isEmpty then
    { type := .aliasKind, score := some q.length, meta := some (aliasFuzzyHits x q o),
      isAlias := true }
  else if !(tagHits x q o).isEmpty then
    { type := .tag, score := none, meta := some (tagHits x q o), isAlias := false }
  else if !(headerHits x q o).isEmpty then
    { type := .header, score := none, meta := some (headerHits x q o), isAlias := false }
  else if !(linkHits x q o).isEmpty then
    { type := .link, score := none, meta := some (linkHits x q o), isAlias := false }
  else
    { type := .notFound, score := none, meta := none, isAlias := false }

/-- Modelled from the spec (§4.3): `stampMatchResults` of
`src/matcher.ts` returns the item with `matchResults` populated, one
verdict per token. -/
def stampMatchResults (x : SuggestionItem) (qs : List (List Char)) (o : SearchOption) :
    SuggestionItem :=
  { x with matchResults := qs.map (fun q => matchToken x q o) }

/-! ## Priority sorter

`src/sorters.ts` is not under `src/`; modelled from the spec (§4.4). -/

/-- An item whose every match verdict is exact (score sentinel `none`). -/
def allMatchesExact (x : SuggestionItem) : Bool :=
  x.matchResults.all (fun r => r.score == none)

/-- Recency lookup: the externally supplied last-open index
(`lastOpenFileIndexByPath` built at `AnotherQuickSwitcherModal.ts` lines
343-346), 0 = most recent; a missing path is treated as "never opened"
(spec §7 fallback). -/
def recencyOf (recency : List (List Char × Nat)) (path : List Char) : Option Nat :=
  (recency.find? (fun kv => kv.1 == path)).map (fun kv => kv.2)

/-- Compare two optional recency ranks: present beats absent, smaller
rank (more recent) ranks higher. -/
def compareRecency : Option Nat → Option Nat → Ordering
  | none, none => .eq
  | some _, none => .lt
  | none, some _ => .gt
  | some m, some n => compare m n

/-- Modelled from the spec (§3, §4.4): one comparison criterion.
`.lt` means the first item ranks higher. -/
def compareByRule (rule : PriorityRule) (recency : List (List Char × Nat))
    (a b : SuggestionItem) : Ordering :=
  match rule with
  | .exactOverFuzzy =>
    match allMatchesExact a, allMatchesExact b with
    | true, false => .lt
    | false, true => .gt
    | _, _ => .eq
  | .shorterName => compare a.file.basename.length b.file.basename.length
  | .starred =>
    match a.starred, b.starred with
    | true, false => .lt
    | false, true => .gt
    | _, _ => .eq
  | .lastOpened =>
    compareRecency (recencyOf recency a.file.path) (recencyOf recency b.file.path)
  | .alphabetical => lexCompare a.file.basename b.file.basename

/-- Modelled from the spec (§4.4): apply the rules in list order; the
first rule yielding a non-`eq` comparison decides. -/
def priorityCompare (rules : List PriorityRule) (recency : List (List Char × Nat))
    (a b : SuggestionItem) : Ordering :=
  match rules with
  | [] => .eq
  | r :: rs =>
    match compareByRule r recency a b with
    | .eq => priorityCompare rs recency a b
    | o => o

/-- Stable insertion: `x` (which originally preceded everything in the
already-sorted tail) is placed before the first element it does not
strictly follow, so ties keep the original relative order. -/
def sortedInsert {α : Type} (cmp : α → α → Ordering) (x : α) : List α → List α
  | [] => [x]
  | y :: ys => if cmp x y = .gt then y :: sortedInsert cmp x ys else x :: y :: ys

/-- Stable insertion sort. -/
def stableSort {α : Type} (cmp : α → α → Ordering) : List α → List α
  | [] => []
  | x :: xs => sortedInsert cmp x (stableSort cmp xs)

/-- Modelled from the spec (§4.4): `sort` of `src/sorters.ts` - a stable
sort by the configured priority rules with the recency index. -/
def sortItems (items : List SuggestionItem) (priorities : List PriorityRule)
    (lastOpenFileIndexByPath : List (List Char × Nat)) : List SuggestionItem :=
  stableSort (priorityCompare priorities lastOpenFileIndexByPath) items

/-- A rule that only makes sense for match quality (there is no match to
compare when the query is empty). -/
def isMatchQualityRule : PriorityRule → Bool
  | .exactOverFuzzy => true
  | _ => false

/-- Modelled from the spec (§4.4): `filterNoQueryPriorities` of
`src/sorters.ts` - the reduced rule list substituted for an empty query,
a pure function of the configured priority list. -/
def filterNoQueryPriorities (priorities : List PriorityRule) : List PriorityRule :=
  priorities.filter (fun r => !isMatchQualityRule r)

/-! ## The suggestion pipeline (`AnotherQuickSwitcherModal._getSuggestions`)

Embeds lines 370-420 of `src/ui/AnotherQuickSwitcherModal.ts`: query
tokenization, the backlink guard, the match-and-filter step, the
prioritized sort, the shown/total counts, and the truncation with order
assignment. -/

/-- Modelled from the spec (§4.1): `smartWhitespaceSplit` of
`src/utils/strings.ts` is not under `src/`; tokenization splits the
query on runs of whitespace (including full-width spaces), discarding
empty fragments and preserving order. -/
def smartWhitespaceSplit (query : List Char) : List (List Char) :=
  (splitOnPred isWhitespaceChar query).filter (fun t => !t.isEmpty)

/-- JavaScript falsiness of `this.originFile?.path`: no origin file, or
an empty path string. -/
def isFalsyPath : Option (List Char) → Bool
  | none => true
  | some p => p.isEmpty

/-- The option record built inline at `AnotherQuickSwitcherModal.ts`
lines 382-390 from the command and the settings. -/
def toSearchOption (cmd : CommandM) (st : SettingsM) : SearchOption :=
  { isNormalizeAccentsDiacritics := st.normalizeAccentsAndDiacritics
    searchByHeaders := cmd.searchByHeader
    searchByLinks := cmd.searchByLink
    searchByTags := cmd.searchByTag
    fuzzyTarget := cmd.allowFuzzySearchForSearchTarget
    minFuzzyScore := cmd.minFuzzyMatchScore }

/-- Lines 380-392: stamp every pre-filtered candidate with per-token
match results and keep only the items whose every result is a hit
(`matchResults.every((x) => x.type !== "not found")`). -/
def matchedSuggestions (ignoredItems : List SuggestionItem) (qs : List (List Char))
    (o : SearchOption) : List SuggestionItem :=
  (ignoredItems.map (fun x => stampMatchResults x qs o)).filter
    (fun x => x.matchResults.all (fun r => r.type != MatchType.notFound))

/-- Lines 418-420: `.map((x, order) => ({ ...x, order }))` after
truncation - each returned item receives its 0-based display index. -/
def mapWithOrder (n : Nat) : List SuggestionItem → List SuggestionItem
  | [] => []
  | x :: xs => { x with order := some n } :: mapWithOrder (n + 1) xs

/-- The core of `_getSuggestions` (lines 370-420), parameterized by the
pre-filtered candidates (`this.ignoredItems`), the resolved search query
(`this.searchQuery`), the active command and settings, the origin file
path, and the externally maintained recency index.  The backlink guard
branch returns before the count element is rendered; its counts are
modelled as zero. -/
def getSuggestionsCore (ignoredItems : List SuggestionItem) (searchQuery : List Char)
    (cmd : CommandM) (st : SettingsM) (originFilePath : Option (List Char))
    (lastOpenFileIndexByPath : List (List Char × Nat)) : SuggestResult :=
  let qs := smartWhitespaceSplit searchQuery
  if cmd.searchTarget == SearchTarget.backlink && isFalsyPath originFilePath then
    { items := [], shownCount := 0, totalCount := 0 }
  else
    let isQueryEmpty := (jsTrim searchQuery).isEmpty
    let matched :=
      if isQueryEmpty then ignoredItems
      else matchedSuggestions ignoredItems qs (toSearchOption cmd st)
    let items :=
      sortItems matched
        (if isQueryEmpty then filterNoQueryPriorities cmd.sortPriorities
         else cmd.sortPriorities)
        lastOpenFileIndexByPath
    { items := mapWithOrder 0 (items.take st.maxNumberOfSuggestions)
      shownCount := min items.length st.maxNumberOfSuggestions
      totalCount := items.length }

/-! ## `HeaderModal` (`src/ui/HeaderModal.ts`, provided as
`src/unnamed/part_001`) -/

/-- The single-space split before filtering:
`query.split(" ")` at `HeaderModal.getSuggestions`. -/
def jsSplitSpace (query : List Char) : List (List Char) :=
  splitOnPred (fun c => c == ' ') query

/-- Embeds `HeaderModal.getSuggestions` line 142:
`query.split(" ").filter((x) => x)` - the header search tokenizer. -/
def headerQueryTokens (query : List Char) : List (List Char) :=
  (jsSplitSpace query).filter (fun t => !t.isEmpty)

/-- Embeds `HeaderModal.getNextSelectIndex` (part_001 lines 68-72).  JavaScript
numbers holding integer values are embedded as `Int`. -/
def getNextSelectIndex (unsafeSelectedIndex itemsLength : Int) : Int :=
  if unsafeSelectedIndex + 1 > itemsLength - 1 then 0 else unsafeSelectedIndex + 1

/-- Embeds `HeaderModal.getPreviousSelectIndex` (part_001 lines 74-78). -/
def getPreviousSelectIndex (unsafeSelectedIndex itemsLength : Int) : Int :=
  if unsafeSelectedIndex - 1 < 0 then itemsLength - 1 else unsafeSelectedIndex - 1

/-! ## `createElements` (`src/ui/suggestion-factory.ts`)

The DOM elements are abstracted to object references; what the claims
need is which elements exist and JavaScript reference identity.  Object
allocation is modelled by threading a counter: every allocation yields a
fresh identifier, so `===` between an existing object and a fresh `{}`
literal is reference inequality. -/

/-- A JavaScript object reference (identified by its allocation id). -/
structure ObjRef where
  id : Nat
  deriving DecidableEq, Repr

/-- JavaScript `===` on two object references: reference identity. -/
def jsStrictEq (a b : ObjRef) : Bool :=
  a.id == b.id

/-- The result record of `createElements` (`Elements` interface):
`itemDiv` always, `descriptionDiv` optional. -/
structure ElementsM where
  itemDiv : ObjRef
  descriptionDiv : Option ObjRef
  deriving DecidableEq, Repr

/-- The `Options` interface of `suggestion-factory.ts`. -/
structure FactoryOptions where
  showDirectory : Bool
  showFullPathOfDirectory : Bool
  showAliasesOnTop : Bool
  hideGutterIcons : Bool
  deriving DecidableEq, Repr

/-- Embeds `createElements` (suggestion-factory.ts lines 162-211): computes the
alias/tag/link/header descriptions, creates the item div, and - unless
the early-return guard holds - also a description div.  The guard's last
conjunct compares `countByHeader` with a fresh `{}` object literal using
`===`.  `c` is the allocation counter. -/
def createElements (item : SuggestionItem) (_options : FactoryOptions) (c : Nat) :
    ElementsM × Nat :=
  let aliases := uniqFlatMap (item.matchResults.filter (fun res => res.isAlias))
    (fun x => x.meta.getD [])
  let tags := uniqFlatMap (item.matchResults.filter (fun res => res.type == MatchType.tag))
    (fun x => x.meta.getD [])
  let links := uniqFlatMap (item.matchResults.filter (fun res => res.type == MatchType.link))
    (fun x => x.meta.getD [])
  let headerResults := item.matchResults.filter (fun res => res.type == MatchType.header)
  let _headerResultsNum := headerResults.length
  let _countByHeader := countOccurrences
    (flatten (headerResults.map (fun xs => uniq (xs.meta.getD []))))
  let countByHeaderRef : ObjRef := ⟨c⟩
  let itemDivRef : ObjRef := ⟨c + 1⟩
  let freshLiteralRef : ObjRef := ⟨c + 2⟩
  if aliases.length == 0 && tags.length == 0 && links.length == 0 &&
      jsStrictEq countByHeaderRef freshLiteralRef then
    ({ itemDiv := itemDivRef, descriptionDiv := none }, c + 3)
  else
    ({ itemDiv := itemDivRef, descriptionDiv := some ⟨c + 3⟩ }, c + 4)

/-! ## `AppHelper` phantom files (`src/app-helper.ts`, provided as
`src/unnamed/part_000`) -/

/-- Model of the host API `getLinkpath`: the link text up to a `#`
subpath marker. -/
def getLinkpath (linkText : List Char) : List Char :=
  linkText.takeWhile (fun c => c ≠ '#')

/-- Scans a reversed path from the end of the original string,
collecting characters up to and including the last `.` of the final path
segment; `none` when the final segment has no dot. -/
def scanExt : List Char → Option (List Char)
  | [] => none
  | c :: cs =>
    if c = '/' then none
    else if c = '.' then some ['.']
    else (scanExt cs).map (fun e => c :: e)

/-- Modelled from the spec: `extname` of `src/utils/path.ts` is not
under `src/`; modelled as the extension starting at the last dot of the
final path segment (empty when there is none). -/
def extname (path : List Char) : List Char :=
  ((scanExt path.reverse).getD []).reverse

/-- Modelled from the spec: `basename` of `src/utils/path.ts` - the
final path segment. -/
def basenameOf (path : List Char) : List Char :=
  (path.reverse.takeWhile (fun c => c ≠ '/')).reverse

/-- Modelled from the spec: `basename` with an extension argument -
the final path segment with the given suffix removed. -/
def basenameWithoutExt (path ext : List Char) : List Char :=
  let b := basenameOf path
  if ext.isSuffixOf b then b.take (b.length - ext.length) else b

/-- Modelled from the spec: `dirname` of `src/utils/path.ts` - the path
with the final segment removed. -/
def dirnameOf (path : List Char) : List Char :=
  ((path.reverse.dropWhile (fun c => c ≠ '/')).drop 1).reverse

/-- Values of `vault.config.newFileLocation`. -/
inductive NewFileLocation where
  | root
  | current
  | folder
  deriving DecidableEq, Repr

/-- The slice of the vault configuration read by
`AppHelper.getPathToBeCreated`. -/
structure VaultConfig where
  newFileLocation : Option NewFileLocation
  newFileFolderPath : Option (List Char)
  deriving DecidableEq, Repr

/-- Embeds `AppHelper.getPathToBeCreated` (part_000 lines 512-533):
appends ".md" when the link path's extension differs, then resolves the
directory according to the vault configuration.  `activeParentPath`
models `this.getActiveFile()?.parent?.path ?? ""`; an absent
`newFileFolderPath` renders as the string "undefined" as the JavaScript
template literal would. -/
def getPathToBeCreated (cfg : VaultConfig) (activeParentPath : Option (List Char))
    (linkText : List Char) : List Char :=
  let linkPath := getLinkpath linkText
  let linkPath := if extname linkPath ≠ ".md".data then linkPath ++ ".md".data else linkPath
  if linkPath.contains '/' then linkPath
  else
    match cfg.newFileLocation with
    | some .root => '/' :: linkPath
    | some .current => (activeParentPath.getD []) ++ '/' :: linkPath
    | some .folder => (cfg.newFileFolderPath.getD "undefined".data) ++ '/' :: linkPath
    | none => '/' :: linkPath

/-- Embeds `AppHelper.createPhantomFile` (part_000 lines 571-597): the in-memory
`TFile` stand-in for a not-yet-created note, with `stat` all zero and
extension "md". -/
def createPhantomFile (cfg : VaultConfig) (activeParentPath : Option (List Char))
    (linkText : List Char) : TFileM :=
  let linkPath := getPathToBeCreated cfg activeParentPath linkText
  { path := linkPath
    name := basenameOf linkPath
    extension := "md".data
    basename := basenameWithoutExt linkPath ".md".data
    parentName := basenameOf (dirnameOf linkPath)
    parentPath := dirnameOf linkPath
    stat := { mtime := 0, ctime := 0, size := 0 } }

/-- Embeds `AppHelper.isPhantomFile` (part_000 lines 549-551). -/
def isPhantomFile (file : TFileM) : Bool :=
  file.stat.ctime == 0

/-- Embeds `AppHelper.searchPhantomFiles` (part_000 lines 435-443): one phantom
file per distinct unresolved link text.  `unresolvedLinks` models
`metadataCache.unresolvedLinks : Record<string, Record<string, number>>`
as an association list. -/
def searchPhantomFiles (cfg : VaultConfig) (activeParentPath : Option (List Char))
    (unresolvedLinks : List (List Char × List (List Char × Nat))) : List TFileM :=
  (uniq (flatten (unresolvedLinks.map (fun kv => kv.2.map (fun e => e.1))))).map
    (createPhantomFile cfg activeParentPath)

/-! ## Shared lemmas about the embedded operations -/

theorem mapWithOrder_length (n : Nat) (l : List SuggestionItem) :
    (mapWithOrder n l).length = l.length := by
  induction l generalizing n with
  | nil => rfl
  | cons x xs ih => simp [mapWithOrder, ih]

theorem mapWithOrder_map_order (n : Nat) (l : List SuggestionItem) :
    (mapWithOrder n l).map (fun x => x.order) = (List.range' n l.length).map some := by
  induction l generalizing n with
  | nil => rfl
  | cons x xs ih => simp [mapWithOrder, List.range'_succ, ih]

theorem mem_mapWithOrder {x : SuggestionItem} {n : Nat} {l : List SuggestionItem}
    (h : x ∈ mapWithOrder n l) : ∃ y ∈ l, ∃ k, x = { y with order := some k } := by
  induction l generalizing n with
  | nil => simp [mapWithOrder] at h
  | cons z zs ih =>
    simp only [mapWithOrder, List.mem_cons] at h
    rcases h with h | h
    · exact ⟨z, by simp, n, h⟩
    · obtain ⟨y, hy, k, hk⟩ := ih h
      exact ⟨y, by simp [hy], k, hk⟩

theorem sortedInsert_length {α : Type} (cmp : α → α → Ordering) (x : α) (l : List α) :
    (sortedInsert cmp x l).length = l.length + 1 := by
  induction l with
  | nil => rfl
  | cons y ys ih => by_cases h : cmp x y = .gt <;> simp [sortedInsert, h, ih]

theorem stableSort_length {α : Type} (cmp : α → α → Ordering) (l : List α) :
    (stableSort cmp l).length = l.length := by
  induction l with
  | nil => rfl
  | cons x xs ih => simp [stableSort, sortedInsert_length, ih]

theorem mem_sortedInsert {α : Type} (cmp : α → α → Ordering) (x a : α) (l : List α) :
    a ∈ sortedInsert cmp x l ↔ a = x ∨ a ∈ l := by
  induction l with
  | nil => simp [sortedInsert]
  | cons y ys ih =>
    by_cases h : cmp x y = .gt
    · simp only [sortedInsert, if_pos h, List.mem_cons, ih]
      tauto
    · simp [sortedInsert, h]

theorem mem_stableSort {α : Type} (cmp : α → α → Ordering) (a : α) (l : List α) :
    a ∈ stableSort cmp l ↔ a ∈ l := by
  induction l with
  | nil => simp [stableSort]
  | cons x xs ih => simp [stableSort, mem_sortedInsert, ih]

theorem sortedInsert_eq_cons {α : Type} (cmp : α → α → Ordering) (x : α) (l : List α)
    (h : ∀ y ∈ l, cmp x y ≠ .gt) : sortedInsert cmp x l = x :: l := by
  cases l with
  | nil => rfl
  | cons y ys => simp [sortedInsert, h y (by simp)]

/-- A stable sort leaves a list unchanged when every pair of its elements
compares as a tie. -/
theorem stableSort_of_all_ties {α : Type} (cmp : α → α → Ordering) (l : List α)
    (h : ∀ a ∈ l, ∀ b ∈ l, cmp a b = .eq) : stableSort cmp l = l := by
  induction l with
  | nil => rfl
  | cons x xs ih =>
    have hxs : stableSort cmp xs = xs :=
      ih (fun a ha b hb => h a (by simp [ha]) b (by simp [hb]))
    rw [stableSort, hxs, sortedInsert_eq_cons]
    intro y hy
    rw [h x (by simp) y (by simp [hy])]
    simp

/-! ## Concrete fixtures used by the witnesses -/

/-- A minimal file record. -/
def mkFile (bn : List Char) : TFileM :=
  { path := bn, name := bn, extension := "md".data, basename := bn,
    parentName := [], parentPath := [], stat := { mtime := 1, ctime := 1, size := 0 } }

/-- A minimal candidate item with the given basename and no facet data. -/
def mkItem (bn : List Char) : SuggestionItem :=
  { file := mkFile bn, aliases := [], tags := [], headers := [], links := [],
    phantom := false, starred := false, matchResults := [], tokens := [bn] }

/-- A starred item (used to exercise stability on a mixed list). -/
def itemStarred : SuggestionItem :=
  { mkItem "s".data with starred := true }

/-- A file-search command with only name search enabled and no fuzzy
matching. -/
def cmd0 : CommandM :=
  { searchTarget := .file, searchByTag := false, searchByHeader := false,
    searchByLink := false, allowFuzzySearchForSearchTarget := false,
    minFuzzyMatchScore := 0, sortPriorities := [.starred, .lastOpened] }

/-- A backlink-search command. -/
def cmdBacklink : CommandM :=
  { cmd0 with searchTarget := .backlink }

/-- Minimal settings. -/
def st0 : SettingsM :=
  { normalizeAccentsAndDiacritics := false, maxNumberOfSuggestions := 50 }

/-- The search option record corresponding to `cmd0`/`st0`. -/
def o0 : SearchOption := toSearchOption cmd0 st0

/-- The "Project Plan" item of the spec's AND-filter test (§8): name
tokens "Project"/"Plan", no tags, no other facet data. -/
def itemPP : SuggestionItem :=
  { file := mkFile "Project Plan".data, aliases := [], tags := [], headers := [],
    links := [], phantom := false, starred := false, matchResults := [],
    tokens := ["Project".data, "Plan".data] }

/-! ## Claims -/

/-- C9: in `HeaderModal`, whenever the items list is non-empty and
`0 ≤ unsafeSelectedIndex ≤ items.length - 1`, `getNextSelectIndex` and
`getPreviousSelectIndex` each return an index in the same range, wrapping
cyclically: the successor of the last index is 0 and the predecessor of
index 0 is the last index. -/
theorem claim_C9_select_index_wraps (itemsLength idx : Int)
    (h1 : 0 < itemsLength) (h2 : 0 ≤ idx) (h3 : idx ≤ itemsLength - 1) :
    (0 ≤ getNextSelectIndex idx itemsLength ∧
      getNextSelectIndex idx itemsLength ≤ itemsLength - 1) ∧
    (0 ≤ getPreviousSelectIndex idx itemsLength ∧
      getPreviousSelectIndex idx itemsLength ≤ itemsLength - 1) ∧
    (idx = itemsLength - 1 → getNextSelectIndex idx itemsLength = 0) ∧
    (idx = 0 → getPreviousSelectIndex idx itemsLength = itemsLength - 1) := by
  unfold getNextSelectIndex getPreviousSelectIndex
  split_ifs <;> omega

theorem claim_C9_witness :
    (0 : Int) < 3 ∧ (0 : Int) ≤ 2 ∧ (2 : Int) ≤ 3 - 1 ∧
    ((0 ≤ getNextSelectIndex 2 3 ∧ getNextSelectIndex 2 3 ≤ 3 - 1) ∧
      (0 ≤ getPreviousSelectIndex 2 3 ∧ getPreviousSelectIndex 2 3 ≤ 3 - 1) ∧
      ((2 : Int) = 3 - 1 → getNextSelectIndex 2 3 = 0) ∧
      ((2 : Int) = 0 → getPreviousSelectIndex 2 3 = 3 - 1)) :=
  ⟨by decide, by decide, by decide,
    claim_C9_select_index_wraps 3 2 (by decide) (by decide) (by decide)⟩

/-- C8: for every item and every options value, `createElements` returns
a result containing a `descriptionDiv`: the early-return branch yielding
only `itemDiv` is unreachable, because its guard compares `countByHeader`
with a fresh `{}` object literal using `===` (reference equality), which
is never true. -/
theorem claim_C8_description_always_present (item : SuggestionItem)
    (options : FactoryOptions) (c : Nat) :
    ((createElements item options c).1.descriptionDiv).isSome = true := by
  have hne : jsStrictEq ⟨c⟩ ⟨c + 2⟩ = false := by
    simp [jsStrictEq]
  simp [createElements, hne]

/-- C3: the final suggestion list is truncated to at most
`maxNumberOfSuggestions` items, and each returned item's `order` field
equals its 0-based index in the truncated list. -/
theorem claim_C3_truncation_and_order (ignoredItems : List SuggestionItem)
    (searchQuery : List Char) (cmd : CommandM) (st : SettingsM)
    (originFilePath : Option (List Char)) (recency : List (List Char × Nat)) :
    (getSuggestionsCore ignoredItems searchQuery cmd st originFilePath recency).items.length
        ≤ st.maxNumberOfSuggestions ∧
    (getSuggestionsCore ignoredItems searchQuery cmd st originFilePath recency).items.map
        (fun x => x.order)
      = (List.range
          (getSuggestionsCore ignoredItems searchQuery cmd st originFilePath
            recency).items.length).map some := by
  simp only [getSuggestionsCore]
  split
  · simp
  · constructor
    · rw [mapWithOrder_length]
      exact List.length_take_le _ _
    · rw [mapWithOrder_map_order, mapWithOrder_length, List.range_eq_range']

/-- C5: the displayed count equals the minimum of the pre-truncation
total count and the configured result cap, and it is exactly the number
of returned items. -/
theorem claim_C5_shown_total_counts (ignoredItems : List SuggestionItem)
    (searchQuery : List Char) (cmd : CommandM) (st : SettingsM)
    (originFilePath : Option (List Char)) (recency : List (List Char × Nat)) :
    (getSuggestionsCore ignoredItems searchQuery cmd st originFilePath recency).shownCount
      = min (getSuggestionsCore ignoredItems searchQuery cmd st originFilePath
              recency).totalCount
          st.maxNumberOfSuggestions ∧
    (getSuggestionsCore ignoredItems searchQuery cmd st originFilePath
        recency).items.length
      = (getSuggestionsCore ignoredItems searchQuery cmd st originFilePath
          recency).shownCount := by
  simp only [getSuggestionsCore]
  split
  · simp
  · constructor
    · rfl
    · rw [mapWithOrder_length, List.length_take, Nat.min_comm]

/-- Inserting an element the projection rejects does not disturb the
projected sublist. -/
theorem filter_sortedInsert_neg {α : Type} (cmp : α → α → Ordering) (p : α → Bool)
    (x : α) (hx : p x = false) (l : List α) :
    (sortedInsert cmp x l).filter p = l.filter p := by
  induction l with
  | nil => simp [sortedInsert, hx]
  | cons y ys ih =>
    by_cases h : cmp x y = .gt
    · rw [sortedInsert, if_pos h, List.filter_cons, List.filter_cons, ih]
    · simp [sortedInsert, h, hx]

/-- Inserting an element that does not strictly follow any selected
element of the list places it in front of the projected sublist. -/
theorem filter_sortedInsert_pos {α : Type} (cmp : α → α → Ordering) (p : α → Bool)
    (x : α) (hx : p x = true) (l : List α) :
    (∀ y ∈ l, p y = true → cmp x y ≠ .gt) →
    (sortedInsert cmp x l).filter p = x :: l.filter p := by
  induction l with
  | nil => intro _; simp [sortedInsert, hx]
  | cons y ys ih =>
    intro hl
    by_cases h : cmp x y = .gt
    · have hy : p y = false := by
        cases hpy : p y with
        | true => exact absurd h (hl y (List.mem_cons_self y ys) hpy)
        | false => rfl
      simp [sortedInsert, h, hy, ih (fun z hz hpz => hl z (List.mem_cons_of_mem y hz) hpz)]
    · simp [sortedInsert, h, hx]

/-- Pairwise stability of the stable insertion sort: for any class of
elements that tie pairwise under the comparator (selected by `p`), the
sorted output keeps the original relative order of that class, in an
arbitrary mixed input list. -/
theorem stableSort_filter_stable {α : Type} (cmp : α → α → Ordering) (p : α → Bool)
    (l : List α) :
    (∀ a ∈ l, ∀ b ∈ l, p a = true → p b = true → cmp a b = Ordering.eq) →
    (stableSort cmp l).filter p = l.filter p := by
  induction l with
  | nil => intro _; rfl
  | cons x xs ih =>
    intro hp
    have hxs := ih (fun a ha b hb =>
      hp a (List.mem_cons_of_mem x ha) b (List.mem_cons_of_mem x hb))
    by_cases hx : p x = true
    · have hl : ∀ y ∈ stableSort cmp xs, p y = true → cmp x y ≠ Ordering.gt := by
        intro y hy hpy
        have hy' : y ∈ xs := (mem_stableSort cmp y xs).mp hy
        rw [hp x (List.mem_cons_self x xs) y (List.mem_cons_of_mem x hy') hx hpy]
        simp
      rw [stableSort, filter_sortedInsert_pos cmp p x hx (stableSort cmp xs) hl, hxs]
      simp [List.filter_cons, hx]
    · have hx' : p x = false := Bool.eq_false_iff.mpr hx
      rw [stableSort, filter_sortedInsert_neg cmp p x hx', hxs]
      simp [List.filter_cons, hx']

/-- C4: evaluating the aggregator twice with identical
(item, tokens, config) inputs yields identical match-result sequences -
the verdicts do not depend on the mutable `matchResults`/`order`
bookkeeping left by a previous evaluation, so re-stamping on the next
keystroke reproduces them bit for bit - and the sorter is pairwise
stable: in an arbitrary mixed input list, every class of items that tie
pairwise under all configured priority rules keeps its original relative
order in the output (the stable-sort fallback), which makes the output
order identical across repeated runs with identical input. -/
theorem claim_C4_determinism_and_stability (x : SuggestionItem) (qs : List (List Char))
    (o : SearchOption) (l : List SuggestionItem) (rules : List PriorityRule)
    (recency : List (List Char × Nat)) (p : SuggestionItem → Bool)
    (hp : ∀ a ∈ l, ∀ b ∈ l, p a = true → p b = true →
      priorityCompare rules recency a b = Ordering.eq) :
    (∀ (m : List MatchResult) (k : Option Nat),
      (stampMatchResults { x with matchResults := m, order := k } qs o).matchResults
        = (stampMatchResults x qs o).matchResults) ∧
    (sortItems l rules recency).filter p = l.filter p := by
  constructor
  · intro m k
    rfl
  · rw [sortItems]
    exact stableSort_filter_stable (priorityCompare rules recency) p l hp

theorem claim_C4_witness :
    (∀ a ∈ [mkItem "b".data, mkItem "a".data, itemStarred],
      ∀ b ∈ [mkItem "b".data, mkItem "a".data, itemStarred],
        (!a.starred) = true → (!b.starred) = true →
        priorityCompare [PriorityRule.starred] [] a b = Ordering.eq) ∧
    ((stampMatchResults
        { mkItem "b".data with
            matchResults := [{ type := MatchType.notFound, score := none, meta := none,
                               isAlias := false }],
            order := some 3 }
        ["b".data] o0).matchResults
      = (stampMatchResults (mkItem "b".data) ["b".data] o0).matchResults) ∧
    (sortItems [mkItem "b".data, mkItem "a".data, itemStarred] [PriorityRule.starred]
        []).filter (fun it => !it.starred)
      = [mkItem "b".data, mkItem "a".data, itemStarred].filter (fun it => !it.starred) ∧
    sortItems [mkItem "b".data, mkItem "a".data, itemStarred] [PriorityRule.starred] []
      = [itemStarred, mkItem "b".data, mkItem "a".data] :=
  ⟨by decide,
   (claim_C4_determinism_and_stability (mkItem "b".data) ["b".data] o0
      [mkItem "b".data, mkItem "a".data, itemStarred] [PriorityRule.starred] []
      (fun it => !it.starred) (by decide)).1
     [{ type := MatchType.notFound, score := none, meta := none, isAlias := false }]
     (some 3),
   (claim_C4_determinism_and_stability (mkItem "b".data) ["b".data] o0
      [mkItem "b".data, mkItem "a".data, itemStarred] [PriorityRule.starred] []
      (fun it => !it.starred) (by decide)).2,
   by decide⟩

/-- C2: when the query is blank after trimming (and the backlink guard
does not fire), the match-and-filter step is skipped entirely - the
pre-filtered candidates flow to the sorter unstamped and unfiltered - and
the sorter is invoked with the reduced rule list
`filterNoQueryPriorities cmd.sortPriorities`, a pure function of the
configured priority list; every pre-filtered candidate is eligible
(`totalCount = ignoredItems.length`). -/
theorem claim_C2_empty_query_skips_matching (ignoredItems : List SuggestionItem)
    (searchQuery : List Char) (cmd : CommandM) (st : SettingsM)
    (originFilePath : Option (List Char)) (recency : List (List Char × Nat))
    (hq : jsTrim searchQuery = [])
    (hb : (cmd.searchTarget == SearchTarget.backlink && isFalsyPath originFilePath) = false) :
    getSuggestionsCore ignoredItems searchQuery cmd st originFilePath recency
      = { items := mapWithOrder 0
            ((sortItems ignoredItems (filterNoQueryPriorities cmd.sortPriorities)
              recency).take st.maxNumberOfSuggestions)
          shownCount := min (sortItems ignoredItems
              (filterNoQueryPriorities cmd.sortPriorities) recency).length
            st.maxNumberOfSuggestions
          totalCount := (sortItems ignoredItems (filterNoQueryPriorities cmd.sortPriorities)
              recency).length } ∧
    (getSuggestionsCore ignoredItems searchQuery cmd st originFilePath recency).totalCount
      = ignoredItems.length := by
  have h1 : getSuggestionsCore ignoredItems searchQuery cmd st originFilePath recency
      = { items := mapWithOrder 0
            ((sortItems ignoredItems (filterNoQueryPriorities cmd.sortPriorities)
              recency).take st.maxNumberOfSuggestions)
          shownCount := min (sortItems ignoredItems
              (filterNoQueryPriorities cmd.sortPriorities) recency).length
            st.maxNumberOfSuggestions
          totalCount := (sortItems ignoredItems (filterNoQueryPriorities cmd.sortPriorities)
              recency).length } := by
    simp [getSuggestionsCore, hb, hq]
  refine ⟨h1, ?_⟩
  rw [h1]
  simp [sortItems, stableSort_length]

theorem claim_C2_witness :
    jsTrim "".data = [] ∧
    (cmd0.searchTarget == SearchTarget.backlink && isFalsyPath (some "o".data)) = false ∧
    (getSuggestionsCore [mkItem "a".data] "".data cmd0 st0 (some "o".data) []
      = { items := mapWithOrder 0
            ((sortItems [mkItem "a".data] (filterNoQueryPriorities cmd0.sortPriorities)
              []).take st0.maxNumberOfSuggestions)
          shownCount := min (sortItems [mkItem "a".data]
              (filterNoQueryPriorities cmd0.sortPriorities) []).length
            st0.maxNumberOfSuggestions
          totalCount := (sortItems [mkItem "a".data]
              (filterNoQueryPriorities cmd0.sortPriorities) []).length } ∧
      (getSuggestionsCore [mkItem "a".data] "".data cmd0 st0 (some "o".data) []).totalCount
        = [mkItem "a".data].length) :=
  ⟨by decide, by decide,
    claim_C2_empty_query_skips_matching [mkItem "a".data] "".data cmd0 st0 (some "o".data) []
      (by decide) (by decide)⟩

/-- C7: the suggestion computation is total and degrades on degenerate
input: a backlink search without an origin file returns the empty list, an
empty item list returns the empty list, and an item with empty facet data
whose name does not match a token yields a `NotFound` verdict ("no
match") rather than a fault. -/
theorem claim_C7_degenerate_inputs (ignoredItems : List SuggestionItem)
    (searchQuery : List Char) (cmd : CommandM) (st : SettingsM)
    (originFilePath : Option (List Char)) (recency : List (List Char × Nat))
    (x : SuggestionItem) (q : List Char) (o : SearchOption) :
    (cmd.searchTarget = SearchTarget.backlink → isFalsyPath originFilePath = true →
      (getSuggestionsCore ignoredItems searchQuery cmd st originFilePath recency).items
        = []) ∧
    (getSuggestionsCore [] searchQuery cmd st originFilePath recency).items = [] ∧
    (x.aliases = [] → x.tags = [] → x.headers = [] → x.links = [] →
      nameExactHit x q o = false → nameFuzzyHit x q o = false →
      (matchToken x q o).type = MatchType.notFound) := by
  refine ⟨?_, ?_, ?_⟩
  · intro h1 h2
    simp [getSuggestionsCore, h1, h2]
  · simp only [getSuggestionsCore]
    split
    · rfl
    · simp [matchedSuggestions, sortItems, stableSort, mapWithOrder]
  · intro h1 h2 h3 h4 h5 h6
    simp [matchToken, h5, h6, aliasExactHits, aliasFuzzyHits, tagHits, headerHits,
      linkHits, h1, h2, h3, h4]

theorem claim_C7_witness :
    (getSuggestionsCore [mkItem "n".data] "x".data cmdBacklink st0 none []).items = [] ∧
    (getSuggestionsCore [] "x".data cmd0 st0 (some "o".data) []).items = [] ∧
    (matchToken (mkItem "Untitled".data) "zzz".data o0).type = MatchType.notFound ∧
    nameExactHit (mkItem "Untitled".data) "zzz".data o0 = false ∧
    nameFuzzyHit (mkItem "Untitled".data) "zzz".data o0 = false :=
  ⟨(claim_C7_degenerate_inputs [mkItem "n".data] "x".data cmdBacklink st0 none []
      (mkItem "Untitled".data) "zzz".data o0).1 rfl rfl,
   (claim_C7_degenerate_inputs [] "x".data cmd0 st0 (some "o".data) []
      (mkItem "Untitled".data) "zzz".data o0).2.1,
   (claim_C7_degenerate_inputs [] "x".data cmd0 st0 (some "o".data) []
      (mkItem "Untitled".data) "zzz".data o0).2.2 rfl rfl rfl rfl (by decide) (by decide),
   by decide, by decide⟩

/-- A stamped item passes the `every ≠ "not found"` filter exactly when
every query token produced a hit for the underlying item. -/
theorem stamp_all_not_found_iff (y : SuggestionItem) (qs : List (List Char))
    (o : SearchOption) :
    ((stampMatchResults y qs o).matchResults.all
        (fun r => r.type != MatchType.notFound)) = true ↔
    ∀ q ∈ qs, (matchToken y q o).type ≠ MatchType.notFound := by
  simp [stampMatchResults, List.all_eq_true]

/-- C1: for a non-empty query, an item is in the filtered suggestion set
iff it is a stamped pre-filtered candidate for which every token of the
query produced a match result whose kind is not `NotFound` (AND across
tokens; the OR across facets per token is the definition of
`matchToken`), and every item in the final output satisfies the same
all-tokens-hit condition. -/
theorem claim_C1_and_filter (ignoredItems : List SuggestionItem) (searchQuery : List Char)
    (cmd : CommandM) (st : SettingsM) (originFilePath : Option (List Char))
    (recency : List (List Char × Nat)) (x : SuggestionItem)
    (hq : jsTrim searchQuery ≠ []) :
    (x ∈ matchedSuggestions ignoredItems (smartWhitespaceSplit searchQuery)
        (toSearchOption cmd st) ↔
      ∃ y ∈ ignoredItems,
        x = stampMatchResults y (smartWhitespaceSplit searchQuery)
              (toSearchOption cmd st) ∧
        ∀ q ∈ smartWhitespaceSplit searchQuery,
          (matchToken y q (toSearchOption cmd st)).type ≠ MatchType.notFound) ∧
    (x ∈ (getSuggestionsCore ignoredItems searchQuery cmd st originFilePath recency).items →
      ∀ r ∈ x.matchResults, r.type ≠ MatchType.notFound) := by
  constructor
  · simp only [matchedSuggestions, List.mem_filter, List.mem_map]
    constructor
    · rintro ⟨⟨y, hy, hstamp⟩, hall⟩
      exact ⟨y, hy, hstamp.symm,
        (stamp_all_not_found_iff y _ (toSearchOption cmd st)).mp (hstamp ▸ hall)⟩
    · rintro ⟨y, hy, hstamp, hall⟩
      refine ⟨⟨y, hy, hstamp.symm⟩, ?_⟩
      rw [hstamp]
      exact (stamp_all_not_found_iff y _ (toSearchOption cmd st)).mpr hall
  · intro hx
    have hqe : (jsTrim searchQuery).isEmpty = false := by
      cases hjt : jsTrim searchQuery with
      | nil => exact absurd hjt hq
      | cons a l => rfl
    by_cases hb : (cmd.searchTarget == SearchTarget.backlink &&
        isFalsyPath originFilePath) = true
    · simp [getSuggestionsCore, hb] at hx
    · have hbf : (cmd.searchTarget == SearchTarget.backlink &&
          isFalsyPath originFilePath) = false := Bool.eq_false_iff.mpr hb
      simp only [getSuggestionsCore, hbf, hqe, Bool.false_eq_true, if_false] at hx
      obtain ⟨y, hy, k, rfl⟩ := mem_mapWithOrder hx
      have hy2 : y ∈ sortItems
          (matchedSuggestions ignoredItems (smartWhitespaceSplit searchQuery)
            (toSearchOption cmd st))
          cmd.sortPriorities recency := List.take_subset _ _ hy
      rw [sortItems, mem_stableSort] at hy2
      rw [matchedSuggestions, List.mem_filter] at hy2
      intro r hr
      have hall := List.all_eq_true.mp hy2.2 r hr
      simpa using hall

theorem claim_C1_witness :
    jsTrim "proj zzz".data ≠ [] ∧
    ((stampMatchResults itemPP (smartWhitespaceSplit "proj zzz".data)
        (toSearchOption cmd0 st0)
        ∈ matchedSuggestions [itemPP] (smartWhitespaceSplit "proj zzz".data)
            (toSearchOption cmd0 st0)) ↔
      ∃ y ∈ [itemPP],
        stampMatchResults itemPP (smartWhitespaceSplit "proj zzz".data)
            (toSearchOption cmd0 st0)
          = stampMatchResults y (smartWhitespaceSplit "proj zzz".data)
              (toSearchOption cmd0 st0) ∧
        ∀ q ∈ smartWhitespaceSplit "proj zzz".data,
          (matchToken y q (toSearchOption cmd0 st0)).type ≠ MatchType.notFound) ∧
    (stampMatchResults itemPP (smartWhitespaceSplit "proj zzz".data)
        (toSearchOption cmd0 st0)
        ∈ (getSuggestionsCore [itemPP] "proj zzz".data cmd0 st0 none []).items →
      ∀ r ∈ (stampMatchResults itemPP (smartWhitespaceSplit "proj zzz".data)
            (toSearchOption cmd0 st0)).matchResults,
        r.type ≠ MatchType.notFound) ∧
    stampMatchResults itemPP (smartWhitespaceSplit "proj zzz".data)
        (toSearchOption cmd0 st0)
      ∉ matchedSuggestions [itemPP] (smartWhitespaceSplit "proj zzz".data)
          (toSearchOption cmd0 st0) :=
  ⟨by decide,
   (claim_C1_and_filter [itemPP] "proj zzz".data cmd0 st0 none []
      (stampMatchResults itemPP (smartWhitespaceSplit "proj zzz".data)
        (toSearchOption cmd0 st0)) (by decide)).1,
   (claim_C1_and_filter [itemPP] "proj zzz".data cmd0 st0 none []
      (stampMatchResults itemPP (smartWhitespaceSplit "proj zzz".data)
        (toSearchOption cmd0 st0)) (by decide)).2,
   by decide⟩

/-! ## Tokenization lemmas (claim C6)

The header search tokenizer in `src/ui/HeaderModal.ts` (part_001 line
142) is `query.split(" ").filter((x) => x)`: it splits on the ASCII
space character only. -/

theorem splitOnPred_ne_nil (p : Char → Bool) (q : List Char) : splitOnPred p q ≠ [] := by
  induction q with
  | nil => simp [splitOnPred]
  | cons c cs ih =>
    unfold splitOnPred
    split
    · simp
    · cases h : splitOnPred p cs with
      | nil => exact absurd h ih
      | cons t ts => simp [h]

/-- Joining fragments with a single space: the inverse of
`jsSplitSpace`. -/
def joinSp : List (List Char) → List Char
  | [] => []
  | [t] => t
  | t :: ts => t ++ ' ' :: joinSp ts

/-- The split `jsSplitSpace` loses no information: re-interleaving the separator
restores the original query (so the split preserves the relative order of
all fragments). -/
theorem joinSp_jsSplitSpace (q : List Char) : joinSp (jsSplitSpace q) = q := by
  induction q with
  | nil => rfl
  | cons c cs ih =>
    by_cases hc : c = ' '
    · subst hc
      rw [jsSplitSpace] at ih ⊢
      simp only [splitOnPred, if_pos (by rfl : (' ' == ' ') = true)]
      cases h : splitOnPred (fun c => c == ' ') cs with
      | nil => exact absurd h (splitOnPred_ne_nil _ cs)
      | cons t ts =>
        rw [h] at ih
        simp [joinSp, ih]
    · rw [jsSplitSpace] at ih ⊢
      simp only [splitOnPred, if_neg (by simp [hc] : ¬((c == ' ') = true))]
      cases h : splitOnPred (fun c => c == ' ') cs with
      | nil => exact absurd h (splitOnPred_ne_nil _ cs)
      | cons t ts =>
        rw [h] at ih
        cases ts with
        | nil => simp [joinSp] at ih ⊢; exact ih
        | cons t2 ts2 => simp [joinSp] at ih ⊢; rw [ih]

/-- Every fragment produced by a predicate split is free of separator
characters. -/
theorem splitOnPred_fragments_clean (p : Char → Bool) (q : List Char) :
    (splitOnPred p q).all (fun t => t.all (fun c => !p c)) = true := by
  induction q with
  | nil => simp [splitOnPred]
  | cons c cs ih =>
    unfold splitOnPred
    split
    · simpa using ih
    · cases h : splitOnPred p cs with
      | nil => exact absurd h (splitOnPred_ne_nil _ cs)
      | cons t ts =>
        rw [h] at ih
        simp only [List.all_cons, Bool.and_eq_true] at ih ⊢
        exact ⟨by simp [*], ih.2⟩

/-- Dropping empty fragments does not change the concatenation. -/
theorem flatten_filter_nonempty (l : List (List Char)) :
    (l.filter (fun t => !t.isEmpty)).flatten = l.flatten := by
  induction l with
  | nil => rfl
  | cons t ts ih =>
    cases t with
    | nil => simpa using ih
    | cons a t' => simp [ih]

/-- The concatenation of the raw fragments is the query minus its
separator characters. -/
theorem splitOnPred_flatten (p : Char → Bool) (q : List Char) :
    (splitOnPred p q).flatten = q.filter (fun c => !p c) := by
  induction q with
  | nil => rfl
  | cons c cs ih =>
    by_cases hc : p c = true
    · simp [splitOnPred, hc, ih]
    · cases h : splitOnPred p cs with
      | nil => exact absurd h (splitOnPred_ne_nil _ cs)
      | cons t ts =>
        rw [h] at ih
        simp [splitOnPred, hc, h, ← ih]

/-- The concatenation of the kept tokens is the query minus its
separator characters (tokens keep all non-space content in order). -/
theorem headerQueryTokens_flatten (q : List Char) :
    (headerQueryTokens q).flatten = q.filter (fun c => !(c == ' ')) := by
  rw [headerQueryTokens, flatten_filter_nonempty, jsSplitSpace, splitOnPred_flatten]

theorem list_all_of_mem_filter {l : List (List Char)} {t : List Char}
    (hall : l.all (fun t => t.all (fun c => !(c == ' '))) = true)
    (ht : t ∈ l.filter (fun t => !t.isEmpty)) :
    ((!t.isEmpty) && t.all (fun c => !(c == ' '))) = true := by
  rw [List.mem_filter] at ht
  rw [Bool.and_eq_true]
  exact ⟨ht.2, List.all_eq_true.mp hall t ht.1⟩

/-- C6 counterexample: the claim states that tokenization splits on runs
of whitespace including full-width space characters; the tokenizer in
`src/ui/HeaderModal.ts` (`query.split(" ").filter((x) => x)`) splits on
the ASCII space only, so on the query "a　b" (with a full-width U+3000
space) it disagrees with the spec-worded whitespace splitter
(`smartWhitespaceSplit`, modelled from §4.1): the code yields the single
token "a　b" instead of ["a", "b"]. -/
theorem claim_C6_counterexample :
    headerQueryTokens ('a' :: '　' :: 'b' :: [])
      ≠ smartWhitespaceSplit ('a' :: '　' :: 'b' :: []) := by
  decide

/-- C6 (amended): for every query string, the header-search tokenization
splits on runs of ASCII space characters (U+0020) only - not on general
or full-width whitespace - discards empty fragments, and preserves the
relative order of the remaining tokens; the empty string yields the empty
token list.  Concretely: every kept token is non-empty and space-free,
the concatenation of the kept tokens equals the query minus its spaces,
and re-interleaving the separator into the raw split restores the
query. -/
theorem claim_C6_tokenization (q : List Char) :
    (headerQueryTokens q).all (fun t => (!t.isEmpty) && t.all (fun c => !(c == ' '))) = true ∧
    (headerQueryTokens q).flatten = q.filter (fun c => !(c == ' ')) ∧
    joinSp (jsSplitSpace q) = q ∧
    headerQueryTokens [] = [] := by
  refine ⟨?_, headerQueryTokens_flatten q, joinSp_jsSplitSpace q, rfl⟩
  rw [List.all_eq_true]
  intro t ht
  exact list_all_of_mem_filter (splitOnPred_fragments_clean _ q) ht

/-! ## Path lemmas (claim C10) -/

/-- The scanned (reversed) extension is an initial segment of the
reversed path. -/
theorem scanExt_eq_some (r e : List Char) (h : scanExt r = some e) :
    ∃ t, r = e ++ t := by
  induction r generalizing e with
  | nil => simp [scanExt] at h
  | cons c cs ih =>
    rw [scanExt] at h
    by_cases hc : c = '/'
    · simp [hc] at h
    · by_cases hd : c = '.'
      · rw [if_neg hc, if_pos hd] at h
        obtain rfl : ['.'] = e := by simpa using h
        exact ⟨cs, by rw [hd]; rfl⟩
      · rw [if_neg hc, if_neg hd] at h
        obtain ⟨e', he', rfl⟩ := Option.map_eq_some'.mp h
        obtain ⟨t, ht⟩ := ih e' he'
        exact ⟨t, by rw [ht]; rfl⟩

/-- When `extname` reports ".md", the path really ends in ".md". -/
theorem extname_md_suffix (p : List Char) (h : extname p = ".md".data) :
    ∃ pre, p = pre ++ ".md".data := by
  rw [extname] at h
  cases hs : scanExt p.reverse with
  | none => rw [hs] at h; simp at h
  | some e =>
    rw [hs] at h
    simp only [Option.getD_some] at h
    have he : e = ['d', 'm', '.'] := by
      have := congrArg List.reverse h
      simpa using this
    obtain ⟨t, ht⟩ := scanExt_eq_some _ _ (he ▸ hs)
    refine ⟨t.reverse, ?_⟩
    have := congrArg List.reverse ht
    simpa using this

/-- Prefixing a directory keeps a suffix. -/
theorem append_keeps_suffix (z x suf : List Char) (h : ∃ pre, x = pre ++ suf) :
    ∃ pre, z ++ x = pre ++ suf := by
  obtain ⟨pre, rfl⟩ := h
  exact ⟨z ++ pre, by rw [List.append_assoc]⟩

/-- The function `getPathToBeCreated` always produces a path ending in ".md". -/
theorem getPathToBeCreated_md_suffix (cfg : VaultConfig)
    (activeParentPath : Option (List Char)) (linkText : List Char) :
    ∃ pre, getPathToBeCreated cfg activeParentPath linkText = pre ++ ".md".data := by
  rw [getPathToBeCreated]
  by_cases hext : extname (getLinkpath linkText) ≠ ".md".data
  · simp only [if_pos hext]
    have hsuf : ∃ pre, getLinkpath linkText ++ ".md".data = pre ++ ".md".data :=
      ⟨getLinkpath linkText, rfl⟩
    split
    · exact hsuf
    · cases hloc : cfg.newFileLocation with
      | none => exact append_keeps_suffix ['/'] _ _ hsuf
      | some loc =>
        cases loc with
        | root => exact append_keeps_suffix ['/'] _ _ hsuf
        | current =>
          exact append_keeps_suffix _ _ _ (append_keeps_suffix ['/'] _ _ hsuf)
        | folder =>
          exact append_keeps_suffix _ _ _ (append_keeps_suffix ['/'] _ _ hsuf)
  · simp only [if_neg hext]
    have hsuf : ∃ pre, getLinkpath linkText = pre ++ ".md".data :=
      extname_md_suffix _ (by revert hext; simp)
    split
    · exact hsuf
    · cases hloc : cfg.newFileLocation with
      | none => exact append_keeps_suffix ['/'] _ _ hsuf
      | some loc =>
        cases loc with
        | root => exact append_keeps_suffix ['/'] _ _ hsuf
        | current =>
          exact append_keeps_suffix _ _ _ (append_keeps_suffix ['/'] _ _ hsuf)
        | folder =>
          exact append_keeps_suffix _ _ _ (append_keeps_suffix ['/'] _ _ hsuf)

/-- C10: every phantom file produced by `searchPhantomFiles` has
`stat.ctime = 0` - so `isPhantomFile` returns true for it (round-trip) -
and has extension "md" with a path ending in ".md", since
`getPathToBeCreated` always appends ".md" when the link path's extension
is not ".md". -/
theorem claim_C10_phantom_files (cfg : VaultConfig)
    (activeParentPath : Option (List Char))
    (unresolvedLinks : List (List Char × List (List Char × Nat))) (f : TFileM)
    (hf : f ∈ searchPhantomFiles cfg activeParentPath unresolvedLinks) :
    f.stat.ctime = 0 ∧ isPhantomFile f = true ∧ f.extension = "md".data ∧
    ∃ pre, f.path = pre ++ ".md".data := by
  rw [searchPhantomFiles] at hf
  obtain ⟨t, _, rfl⟩ := List.mem_map.mp hf
  refine ⟨rfl, rfl, rfl, ?_⟩
  exact getPathToBeCreated_md_suffix cfg activeParentPath t

/-- A vault configuration with no explicit new-file location. -/
def cfg0 : VaultConfig := { newFileLocation := none, newFileFolderPath := none }

theorem claim_C10_witness :
    createPhantomFile cfg0 none "note".data
      ∈ searchPhantomFiles cfg0 none [("a.md".data, [("note".data, 1)])] ∧
    ((createPhantomFile cfg0 none "note".data).stat.ctime = 0 ∧
      isPhantomFile (createPhantomFile cfg0 none "note".data) = true ∧
      (createPhantomFile cfg0 none "note".data).extension = "md".data ∧
      ∃ pre, (createPhantomFile cfg0 none "note".data).path = pre ++ ".md".data) :=
  ⟨by decide,
    claim_C10_phantom_files cfg0 none [("a.md".data, [("note".data, 1)])]
      (createPhantomFile cfg0 none "note".data) (by decide)⟩
